import Mathlib

/-!
# A shallow embedding of nrrdify's DICOM volume engine

This file models the volume reconstruction and temporal-decomposition core of
the `nrrdify` package (`nrrdify/dicomvolume.py`): validity checking of a slice
set, geometric ordering of slices along the through-plane axis, equidistance
and 4D detection (`DicomVolume.sortSlices`), tag-driven temporal splitting
(`DicomVolume.split4D`), per-group sorting (`DicomVolume.sortSlices4D`) and
the orientation classifier (`DicomVolume.getOrientation`).

Modelling conventions:
* Python floats are modelled as exact rationals (`ℚ`); the numpy tolerance
  comparisons (`np.allclose`, thresholds 0.03 mm, 5e-2, 1e-2, default
  `atol=1e-8`, explicit `atol=1e-6`) are carried over literally as rational
  inequalities.
* Optional DICOM attributes (`getattr(x, tag, None)`) are `Option` fields.
* Python's insertion-ordered `dict` used for the temporal groups is an
  association list in insertion order.
* Fallible paths are explicit: `getOrientation` returns `none` where the
  Python code would raise (failed assertion or out-of-bounds index), and the
  4D group sorter returns a four-valued result distinguishing `True`, `False`,
  a bare `return` (Python `None`) and an uncaught exception.
* The packed 8-byte float discriminant encoding (`struct.unpack('d', ...)`)
  is modelled as an `Option ℚ` payload: `some q` when unpacking succeeds with
  value `q`, `none` when it raises (wrong buffer length).
-/

namespace Nrrdify

/-- A discriminant tag designator: a named DICOM keyword (`getattr` lookup) or
a numeric tag code (`dataset.get` lookup), mirroring the `isinstance(splitTag,
int)` branch of `split4D`. -/
inductive SplitTag where
  | name : String → SplitTag
  | code : Int → SplitTag
deriving DecidableEq, Repr

/-- A raw discriminant value as stored in a slice: the heterogeneous encodings
`split4D` has to normalize.  `bytesv (some q)` is a packed buffer that
`struct.unpack('d', ...)` decodes to `q`; `bytesv none` is a buffer whose
unpacking raises, the hard decode-failure path. -/
inductive RawValue where
  | intv : Int → RawValue
  | floatv : ℚ → RawValue
  | strv : String → RawValue
  | bytesv : Option ℚ → RawValue
deriving DecidableEq, Repr

/-- A normalized temporal-group key: integer, non-integral decimal, or
non-numeric string. -/
inductive TagKey where
  | ik : Int → TagKey
  | fk : ℚ → TagKey
  | sk : String → TagKey
deriving DecidableEq, Repr

/-- One slice's metadata record (the fields of a `pydicom` dataset that the
engine reads).  `imagePositionPatient` is the 3-vector position in mm,
`imageOrientationPatient` the row/column direction cosines (normally six
components, kept as a list because `getOrientation` indexes past the end),
`discriminants` the available discriminant tag values. -/
structure DicomSlice where
  filename : String
  patientName : Option String
  studyDate : Option String
  imagePositionPatient : Option (ℚ × ℚ × ℚ)
  imageOrientationPatient : Option (List ℚ)
  discriminants : List (SplitTag × RawValue)
deriving DecidableEq, Repr

/-- The temporal-groups mapping `self.slices4D`: a Python `dict` in insertion
order, modelled as an association list. -/
abbrev Groups := List (TagKey × List DicomSlice)

/-- The mutable state of a `DicomVolume` object (the fields touched by the
sorting/splitting engine). -/
structure DicomVolume where
  slices : List DicomSlice
  slices4D : Option Groups
  is_valid : Bool
  is_equidistant : Bool
  is_sorted : Bool
  is_4D : Bool
  is_sorted4D : Bool
  split_tag : Option SplitTag
  n_slices : Nat
  n_pos : Nat
deriving DecidableEq, Repr

/-- `DicomVolume.__init__`: fresh volume state. -/
def initVolume : DicomVolume :=
  { slices := []
    slices4D := none
    is_valid := true
    is_equidistant := true
    is_sorted := false
    is_4D := false
    is_sorted4D := false
    split_tag := none
    n_slices := 0
    n_pos := 1 }

/-- `DicomVolume.addSlice`: append a slice and invalidate the sort flags. -/
def addSlice (v : DicomVolume) (s : DicomSlice) : DicomVolume :=
  { v with slices := v.slices ++ [s], is_sorted := false, is_sorted4D := false }

/-! ## Numeric helpers (numpy fragments used by the engine) -/

/-- The 0.03 mm duplicate-location cutoff. -/
def tol003 : ℚ := mkRat 3 100

/-- The relative tolerance 5e-2 of the top-level equidistance check. -/
def rtol5em2 : ℚ := mkRat 1 20

/-- The relative tolerance 1e-2 of the per-group equidistance check and of
the orientation comparison. -/
def rtol1em2 : ℚ := mkRat 1 100

/-- numpy's default absolute tolerance 1e-8. -/
def atolDefault : ℚ := mkRat 1 100000000

/-- The explicit absolute tolerance 1e-6 of the orientation comparison in
`_check_valid`. -/
def atol1em6 : ℚ := mkRat 1 1000000

/-- `np.diff`: consecutive differences of a list. -/
def diffs : List ℚ → List ℚ
  | a :: b :: rest => (b - a) :: diffs (b :: rest)
  | _ => []

/-- Insert into a `ℚ`-sorted list (ascending, stable). -/
def insertQ (x : ℚ) : List ℚ → List ℚ
  | [] => [x]
  | y :: l => if x ≤ y then x :: y :: l else y :: insertQ x l

/-- Python `sorted` on a list of floats (ascending). -/
def sortQ : List ℚ → List ℚ
  | [] => []
  | x :: l => insertQ x (sortQ l)

/-- Insert a keyed pair into a list sorted by key (ascending, stable). -/
def insertLoc (x : ℚ × DicomSlice) : List (ℚ × DicomSlice) → List (ℚ × DicomSlice)
  | [] => [x]
  | y :: l => if x.1 ≤ y.1 then x :: y :: l else y :: insertLoc x l

/-- Python `sorted(..., key=lambda s: s[0])` on `(location, slice)` pairs:
an ascending stable sort by the first component. -/
def sortLoc : List (ℚ × DicomSlice) → List (ℚ × DicomSlice)
  | [] => []
  | x :: l => insertLoc x (sortLoc l)

/-- `[f for (d, f) in sorted(zip(locations, slices), key=lambda s: s[0])]`. -/
def sortByLoc (locs : List ℚ) (ss : List DicomSlice) : List DicomSlice :=
  (sortLoc (locs.zip ss)).map Prod.snd

/-- One comparison of `np.allclose(a, b, rtol, atol)`:
`|a - b| <= atol + rtol * |b|`. -/
def npClose (rtol atol a b : ℚ) : Bool := |a - b| ≤ atol + rtol * |b|

/-- `np.allclose(xs, xs[0], rtol, atol)` for a list against its own head
(`True` on the empty list, which the engine never reaches on this path). -/
def allcloseFirst (rtol atol : ℚ) : List ℚ → Bool
  | [] => true
  | b0 :: rest => (b0 :: rest).all (fun a => npClose rtol atol a b0)

/-- Componentwise `np.allclose(xs, ys, rtol, atol)` on equal-length vectors
(shape mismatch is treated as not close). -/
def allcloseList (rtol atol : ℚ) (xs ys : List ℚ) : Bool :=
  xs.length = ys.length && (xs.zip ys).all (fun p => npClose rtol atol p.1 p.2)

/-- First three components of an orientation list, as a 3-vector
(missing components default to 0; the engine only reaches this with six
components present). -/
def vec3OfList (l : List ℚ) : ℚ × ℚ × ℚ := (l.getD 0 0, l.getD 1 0, l.getD 2 0)

/-- `np.cross` on 3-vectors. -/
def cross3 (a b : ℚ × ℚ × ℚ) : ℚ × ℚ × ℚ :=
  (a.2.1 * b.2.2 - a.2.2 * b.2.1,
   a.2.2 * b.1 - a.1 * b.2.2,
   a.1 * b.2.1 - a.2.1 * b.1)

/-- `np.dot` on 3-vectors. -/
def dot3 (a b : ℚ × ℚ × ℚ) : ℚ :=
  a.1 * b.1 + a.2.1 * b.2.1 + a.2.2 * b.2.2

/-! ## Validity checking (`DicomVolume._check_valid`) -/

/-- `DicomVolume._check_valid`: the first slice must carry a patient name and a
study date; every slice must carry `ImagePositionPatient`, `PatientName` and
`StudyDate`; every slice must carry `ImageOrientationPatient` matching the
first slice's within `rtol=1e-2, atol=1e-6` componentwise.  The Python code
returns `False` at the first failing check; the boolean value is the same
conjunction. -/
def check_valid (slices : List DicomSlice) : Bool :=
  match slices with
  | [] => false
  | s0 :: rest =>
    s0.patientName.isSome && s0.studyDate.isSome &&
    (s0 :: rest).all (fun s => s.imagePositionPatient.isSome) &&
    (s0 :: rest).all (fun s => s.patientName.isSome) &&
    (s0 :: rest).all (fun s => s.studyDate.isSome) &&
    (match s0.imageOrientationPatient with
     | none => false
     | some io0 =>
       rest.all (fun s =>
         match s.imageOrientationPatient with
         | none => false
         | some io2 => allcloseList rtol1em2 atol1em6 io0 io2))

/-! ## The geometric locator (`DicomVolume._get_slice_locations`) -/

/-- `DicomVolume._get_slice_locations`: the through-plane normal is the cross
product of the first slice's row-direction cosines (`orientation[:3]`) and
column-direction cosines (`orientation[3:]`); each slice's location is the dot
product of its `ImagePositionPatient` with that normal. -/
def get_slice_locations (slices : List DicomSlice) : List ℚ :=
  match slices with
  | [] => []
  | s0 :: _ =>
    let io := s0.imageOrientationPatient.getD []
    let zvector := cross3 (vec3OfList (io.take 3)) (vec3OfList (io.drop 3))
    slices.map (fun s => dot3 (s.imagePositionPatient.getD (0, 0, 0)) zvector)

/-! ## The sequence sorter / dimensionality classifier
(`DicomVolume.sortSlices`) -/

/-- The local `delta_slices` of `sortSlices`: consecutive deltas of the sorted
slice locations. -/
def rawDeltas (ss : List DicomSlice) : List ℚ :=
  diffs (sortQ (get_slice_locations ss))

/-- The local `boundaries` of `sortSlices`: the raw deltas larger than 0.03 mm
(distinct slice locations; deltas at most 0.03 mm indicate duplicate
locations, the 4D signature). -/
def boundaryDeltas (ss : List DicomSlice) : List ℚ :=
  (rawDeltas ss).filter (fun d => decide (tol003 < d))

/-- `DicomVolume.sortSlices`.  Short-circuits when already sorted; a volume
with fewer than two slices is trivially valid, equidistant and sorted; an
invalid volume gets `is_valid := false`; deltas of the sorted locations are
split into boundary deltas (`> 0.03` mm) and duplicate-location deltas;
inconsistent boundary deltas (`rtol=5e-2`) give `is_equidistant := false`;
remaining deltas beyond the boundaries mean the volume is 4D (`is_4D := true`,
with `is_equidistant := false` when the slice count does not divide evenly);
otherwise the slice list is replaced by its location-sorted order. -/
def sortSlices (v : DicomVolume) : DicomVolume :=
  if v.is_sorted then v
  else if v.slices.length < 2 then
    { v with is_sorted := true, is_valid := true, is_equidistant := true }
  else if !(check_valid v.slices) then
    { v with is_valid := false }
  else if 0 < (boundaryDeltas v.slices).length ∧
          !(allcloseFirst rtol5em2 atolDefault (boundaryDeltas v.slices)) then
    { v with is_equidistant := false }
  else if (boundaryDeltas v.slices).length < (rawDeltas v.slices).length then
    if 0 < v.slices.length % ((boundaryDeltas v.slices).length + 1) then
      { v with n_slices := (boundaryDeltas v.slices).length + 1, is_4D := true,
               is_equidistant := false }
    else
      { v with n_slices := (boundaryDeltas v.slices).length + 1, is_4D := true,
               is_sorted := true }
  else
    { v with n_slices := (boundaryDeltas v.slices).length + 1,
             slices := sortByLoc (get_slice_locations v.slices) v.slices,
             is_sorted := true }

/-! ## The orientation classifier (`DicomVolume.getOrientation`) -/

/-- `DicomVolume.getOrientation`.  `none` models a raised exception: a failed
assertion (no slices, or no `ImageOrientationPatient` on the first slice) or an
out-of-bounds index into the absolute orientation vector.  The Python code
compares `image_orientation[3] >= image_orientation[0]` for sagittal and
`image_orientation[4] >= image_orientation[7]` for transversal, where the
index comments assume a 9-component basis. -/
def getOrientation (v : DicomVolume) : Option String :=
  match v.slices with
  | [] => none
  | s :: _ =>
    match s.imageOrientationPatient with
    | none => none
    | some io =>
      let a := io.map (fun q => |q|)
      match a.get? 3, a.get? 0 with
      | some x3, some x0 =>
        if x0 ≤ x3 then some "sag"
        else
          match a.get? 4, a.get? 7 with
          | some x4, some x7 => if x7 ≤ x4 then some "tra" else some "cor"
          | _, _ => none
      | _, _ => none

/-! ## The temporal splitter (`DicomVolume.split4D`) -/

/-- Python string `strip`: drop leading and trailing whitespace
(modelling the common ASCII whitespace characters). -/
def pyStrip (s : String) : String :=
  let ws : Char → Bool := fun c => c = ' ' || c = '\t' || c = '\n' || c = '\r'
  String.mk (((s.toList.dropWhile ws).reverse.dropWhile ws).reverse)

/-- Python `str.isdigit` on the stripped string: nonempty and all (ASCII)
digits. -/
def stripIsDigit (s : String) : Bool :=
  let t := (pyStrip s).toList
  !t.isEmpty && t.all Char.isDigit

/-- Python `int(...)` on a digits-only (possibly whitespace-padded) string. -/
def parseDigits (s : String) : Int :=
  ((pyStrip s).toList.foldl (fun a c => a * 10 + (c.toNat - 48)) 0 : Nat)

/-- The discriminant-value normalization inside `split4D` (lines 217-235):
an integral float is truncated to an integer key; a numeric string is parsed
to an integer key; any other string is kept as a string key (and flagged
`is_string_temporal`); an `int` is kept; any other encoding goes through
`struct.unpack('d', ...)` and is truncated when integral, with decode failure
(`none`) as a hard failure.  The boolean in the result is
`is_string_temporal`. -/
def normalizeKey : RawValue → Option (TagKey × Bool)
  | .floatv q => if q.den = 1 then some (.ik q.num, false) else some (.fk q, false)
  | .strv s =>
    if stripIsDigit s then some (.ik (parseDigits s), false)
    else some (.sk s, true)
  | .intv n => some (.ik n, false)
  | .bytesv none => none
  | .bytesv (some q) =>
    if q.den = 1 then some (.ik q.num, false) else some (.fk q, false)

/-- Fetch a discriminant value from a slice by tag designator
(`s.get(tag).value` for a numeric code, `getattr(s, tag, None)` for a name;
both yield the stored value or nothing). -/
def tagLookup (s : DicomSlice) (t : SplitTag) : Option RawValue :=
  (s.discriminants.find? (fun p => p.1 = t)).map Prod.snd

/-- The numeric value of a (non-string) key, used for the `max_value`
comparison. -/
def keyNum : TagKey → ℚ
  | .ik n => (n : ℚ)
  | .fk q => q
  | .sk _ => 0

/-- Append a slice to the group of key `k`, creating the group at the end of
the insertion-ordered mapping when absent (Python
`self.slices4D[temporal_position].append(s)`). -/
def addToGroups (gs : Groups) (k : TagKey) (s : DicomSlice) : Groups :=
  match gs with
  | [] => [(k, [s])]
  | (k', l) :: rest =>
    if k' = k then (k', l ++ [s]) :: rest
    else (k', l) :: addToGroups rest k s

/-- The per-slice loop of `split4D`, threading the groups built so far and the
warnings emitted so far.  A missing or undecodable discriminant stops the loop
with `false`; a decodable slice whose numeric key exceeds `max_value` emits a
warning (the slice's filename) and is still appended to its group. -/
def split4DLoop (tag : SplitTag) (max_value : Option ℚ) :
    Groups → List String → List DicomSlice → Groups × Bool × List String
  | gs, ws, [] => (gs, true, ws)
  | gs, ws, s :: rest =>
    match tagLookup s tag with
    | none => (gs, false, ws)
    | some raw =>
      match normalizeKey raw with
      | none => (gs, false, ws)
      | some (k, isStr) =>
        let ws' :=
          match max_value with
          | some m => if !isStr && decide (m < keyNum k) then ws ++ [s.filename] else ws
          | none => ws
        split4DLoop tag max_value (addToGroups gs k s) ws' rest

/-- `DicomVolume.split4D`: reset the temporal-groups mapping and record the
split tag, then bucket each slice by its normalized discriminant key.  The
result is the updated volume, the boolean return value, and the list of
`max_value` warnings emitted (log side-channel). -/
def split4D (v : DicomVolume) (tag : SplitTag) (max_value : Option ℚ) :
    DicomVolume × Bool × List String :=
  let r := split4DLoop tag max_value [] [] v.slices
  ({ v with slices4D := some r.1, split_tag := some tag }, r.2.1, r.2.2)

/-! ## The group sorter (`DicomVolume.sortSlices4D`) -/

/-- The value a call to `sortSlices4D` produces: Python `True`, `False`, a
bare `return` (`None`), or an uncaught exception (indexing
`delta_slices[0]` on an empty delta array). -/
inductive Py4DRet where
  | rTrue : Py4DRet
  | rFalse : Py4DRet
  | rNone : Py4DRet
  | rExn : Py4DRet
deriving DecidableEq, Repr

/-- Does the group's slice count mismatch the running `slice_count`
(`None` on the first group, which therefore never mismatches)? -/
def countMismatch (sc : Option Nat) (g : List DicomSlice) : Bool :=
  match sc with
  | none => false
  | some n => g.length != n

/-- The running `slice_count` after processing a group. -/
def countAfter (sc : Option Nat) (g : List DicomSlice) : Nat :=
  sc.getD g.length

/-- Consecutive deltas of a group's sorted slice locations. -/
def groupDeltas (g : List DicomSlice) : List ℚ :=
  diffs (sortQ (get_slice_locations g))

/-- Replace a group's slice list with its location-sorted order. -/
def sortGroup (g : List DicomSlice) : List DicomSlice :=
  sortByLoc (get_slice_locations g) g

/-- The per-group loop of `sortSlices4D`, threading the running `slice_count`.
For each group in insertion order: a count mismatch or an overlapping delta
(`< 0.03` mm) returns `False`; an empty delta array (single-slice group)
raises on `delta_slices[0]`; inconsistent deltas (`rtol=1e-2`) do a bare
`return`; otherwise the group's list is replaced in place by its sorted order
and the loop continues. -/
def sort4DLoop : Option Nat → Groups → Groups × Py4DRet
  | _, [] => ([], .rTrue)
  | sc, (t, g) :: rest =>
    if countMismatch sc g then ((t, g) :: rest, .rFalse)
    else if (groupDeltas g).any (fun d => decide (d < tol003)) then
      ((t, g) :: rest, .rFalse)
    else
      match groupDeltas g with
      | [] => ((t, g) :: rest, .rExn)
      | d0 :: tl =>
        if (d0 :: tl).all (fun d => npClose rtol1em2 atolDefault d d0) then
          let r := sort4DLoop (some (countAfter sc g)) rest
          ((t, sortGroup g) :: r.1, r.2)
        else ((t, g) :: rest, .rNone)

/-- `DicomVolume.sortSlices4D`: short-circuits with `True` when already
sorted; returns `False` when the volume was never split; otherwise runs the
per-group loop, storing the (possibly partially) rewritten mapping back and,
on full success, the number of temporal positions and the `is_sorted4D` flag;
a bare `return` from an inconsistent group also sets
`is_equidistant := false`. -/
def sortSlices4D (v : DicomVolume) : DicomVolume × Py4DRet :=
  if v.is_sorted4D then (v, .rTrue)
  else
    match v.slices4D with
    | none => (v, .rFalse)
    | some gs =>
      let r := sort4DLoop none gs
      match r.2 with
      | .rTrue =>
        ({ v with slices4D := some r.1, n_pos := r.1.length, is_sorted4D := true },
         .rTrue)
      | .rNone =>
        ({ v with slices4D := some r.1, is_equidistant := false }, .rNone)
      | out => ({ v with slices4D := some r.1 }, out)

/-! ## Derived predicates used in the statements -/

/-- Does a discriminant lookup followed by normalization succeed on this
slice? -/
def decodes (tag : SplitTag) (s : DicomSlice) : Bool :=
  ((tagLookup s tag).bind normalizeKey).isSome

/-- One bucketing step of `split4D`, as a pure fold step. -/
def buildStep (tag : SplitTag) (gs : Groups) (s : DicomSlice) : Groups :=
  match (tagLookup s tag).bind normalizeKey with
  | some kb => addToGroups gs kb.1 s
  | none => gs

/-- Bucket a slice list starting from an existing mapping. -/
def buildFrom (tag : SplitTag) (gs : Groups) (ss : List DicomSlice) : Groups :=
  ss.foldl (buildStep tag) gs

/-- Does this slice trigger the `max_value` warning: a non-string key whose
numeric value exceeds the bound? -/
def exceedsMax (tag : SplitTag) (m : ℚ) (s : DicomSlice) : Bool :=
  match (tagLookup s tag).bind normalizeKey with
  | some kb => !kb.2 && decide (m < keyNum kb.1)
  | none => false

/-- Does one group pass all the checks of the `sortSlices4D` loop under the
running `slice_count`? -/
def groupPass (sc : Option Nat) (g : List DicomSlice) : Bool :=
  !(countMismatch sc g) &&
  !((groupDeltas g).any (fun d => decide (d < tol003))) &&
  (match groupDeltas g with
   | [] => false
   | d0 :: tl => (d0 :: tl).all (fun d => npClose rtol1em2 atolDefault d d0))

/-- The way a failing group makes the `sortSlices4D` loop stop: `False` on a
count mismatch or an overlapping delta, an exception on an empty delta array,
a bare `return` (`None`) otherwise. -/
def groupFailMode (sc : Option Nat) (g : List DicomSlice) : Py4DRet :=
  if countMismatch sc g then .rFalse
  else if (groupDeltas g).any (fun d => decide (d < tol003)) then .rFalse
  else
    match groupDeltas g with
    | [] => .rExn
    | _ :: _ => .rNone

/-- Do all groups pass the `sortSlices4D` checks, threading the running
`slice_count` from the given seed? -/
def allPass : Option Nat → Groups → Bool
  | _, [] => true
  | sc, (_, g) :: rest => groupPass sc g && allPass (some (countAfter sc g)) rest

/-- The running `slice_count` after a list of groups. -/
def scThread : Option Nat → Groups → Option Nat
  | sc, [] => sc
  | sc, (_, g) :: rest => scThread (some (countAfter sc g)) rest

/-- `split4D` immediately followed by `sortSlices4D`, the call pair of the
4D production path. -/
def splitSortPair (v : DicomVolume) (tag : SplitTag) : DicomVolume :=
  (sortSlices4D (split4D v tag none).1).1

/-! ## Concrete instances used by the witnesses and counterexamples -/

/-- A fully-populated axial slice at height `z` carrying the given
discriminant values. -/
def mkSlice (fn : String) (z : ℚ) (tags : List (SplitTag × RawValue)) : DicomSlice :=
  { filename := fn
    patientName := some "P"
    studyDate := some "D"
    imagePositionPatient := some (0, 0, z)
    imageOrientationPatient := some [1, 0, 0, 0, 1, 0]
    discriminants := tags }

/-- The default discriminant tag of `split4D`. -/
def bTag : SplitTag := .name "DiffusionBValue"

/-- A 4-slice volume with two slices at each of two locations: two temporal
frames interleaved at the same positions (the 4D signature). -/
def w1 : DicomVolume :=
  { initVolume with slices :=
      [mkSlice "a" 0 [(bTag, .intv 0)], mkSlice "b" 0 [(bTag, .intv 1)],
       mkSlice "c" 10 [(bTag, .intv 0)], mkSlice "d" 10 [(bTag, .intv 1)]] }

/-- A single-slice volume whose orientation is the standard axial basis
`[1, 0, 0, 0, 1, 0]` (six components, as DICOM stores them). -/
def axialVol : DicomVolume :=
  { initVolume with slices := [mkSlice "ax" 0 []] }

/-- A single-slice volume with a sagittal orientation. -/
def sagVol : DicomVolume :=
  { initVolume with slices :=
      [{ mkSlice "sg" 0 [] with imageOrientationPatient := some [0, 1, 0, 0, 0, 1] }] }

/-- A slice carrying no metadata at all. -/
def emptySlice : DicomSlice :=
  { filename := "e"
    patientName := none
    studyDate := none
    imagePositionPatient := none
    imageOrientationPatient := none
    discriminants := [] }

/-- A single-slice volume whose slice carries no metadata: the validity
checker would reject it, the locator could not run on it. -/
def w6 : DicomVolume := { initVolume with slices := [emptySlice] }

/-- Three slices carrying the value five as a numeric string, a decimal and
an integer. -/
def s9x : DicomSlice := mkSlice "x" 0 [(bTag, .strv "5")]

def s9y : DicomSlice := mkSlice "y" 1 [(bTag, .floatv 5)]

def s9z : DicomSlice := mkSlice "z" 2 [(bTag, .intv 5)]

/-- The volume holding the three encodings of the discriminant value five. -/
def v9 : DicomVolume := { initVolume with slices := [s9x, s9y, s9z] }

/-- A split-and-classified 4D volume whose groups are out of order: two
temporal frames of two slices each, stored upper slice first. -/
def cv3 : DicomVolume :=
  { initVolume with
      slices := [mkSlice "a" 10 [(bTag, .intv 0)], mkSlice "b" 0 [(bTag, .intv 0)],
                 mkSlice "c" 10 [(bTag, .intv 1)], mkSlice "d" 0 [(bTag, .intv 1)]]
      is_4D := true
      is_sorted := true }

/-- A split volume whose first group (two slices, stored out of order) passes
the group checks while the second group has a different slice count. -/
def cv2 : DicomVolume :=
  { initVolume with
      is_4D := true
      is_sorted := true
      slices4D := some [(.ik 0, [mkSlice "a" 10 [], mkSlice "b" 0 []]),
                        (.ik 1, [mkSlice "c" 0 []])] }

/-- A split volume whose two groups both pass the group checks. -/
def w2 : DicomVolume :=
  { initVolume with
      is_4D := true
      is_sorted := true
      slices4D := some [(.ik 0, [mkSlice "a" 10 [], mkSlice "b" 0 []]),
                        (.ik 1, [mkSlice "c" 10 [], mkSlice "d" 0 []])] }

/-- A volume already marked 4D-sorted. -/
def w3 : DicomVolume := { initVolume with is_sorted4D := true }

/-- A three-slice volume where the middle slice is missing the discriminant
tag. -/
def v4 : DicomVolume :=
  { initVolume with slices :=
      [mkSlice "x" 0 [(bTag, .intv 1)], mkSlice "y" 1 [],
       mkSlice "z" 2 [(bTag, .intv 1)]] }

/-! ## Helper lemmas -/

/-- A list containing an element that fails the filter predicate has a
strictly shorter filtrate. -/
theorem length_filter_lt_of_mem {α : Type} {p : α → Bool} {l : List α} {x : α}
    (hx : x ∈ l) (hpx : p x = false) : (l.filter p).length < l.length := by
  induction l with
  | nil => cases hx
  | cons a t ih =>
    rcases List.mem_cons.mp hx with rfl | hxt
    · simp only [List.filter_cons, hpx, List.length_cons]
      exact Nat.lt_succ_of_le (List.length_filter_le p t)
    · by_cases hpa : p a = true
      · simpa [List.filter_cons, hpa] using Nat.succ_lt_succ (ih hxt)
      · have hpa' : p a = false := by
          cases h : p a
          · rfl
          · exact absurd h hpa
        simp only [List.filter_cons, hpa', List.length_cons, Bool.false_eq_true,
          if_false]
        exact Nat.lt_succ_of_lt (ih hxt)

/-! ## Claims -/

section RatComputation

attribute [local semireducible] Rat.add Rat.sub Rat.mul Rat.inv

/-- C5: the claim states that for a volume whose first slice carries a
6-component orientation vector, `getOrientation` is total and returns one of
the three plane labels, reaching the transversal/coronal comparison when the
sagittal test fails.  On the code this fails: the transversal comparison reads
`image_orientation[7]`, which does not exist in a 6-component vector, so every
volume that is not classified sagittal raises `IndexError` (the code's own
index comment assumes a 9-component basis, so the spec reflects the intent and
the index is a slip).  The standard axial orientation `[1, 0, 0, 0, 1, 0]`
exhibits the crash, while the sagittal branch still works. -/
theorem C5_getOrientation_crashes_non_sagittal :
    getOrientation axialVol = none ∧ getOrientation sagVol = some "sag" := by
  exact ⟨by decide, by decide⟩

/-- C6: a volume with fewer than two slices (in the state in which sorting is
actually attempted: sort flag clear, and not previously classified 4D, which
is impossible with fewer than two slices since slices are only ever added) is
classified valid, equidistant, sorted and not 4D, with no other state change:
in particular the result does not depend on the validity checker or on any
geometric field of the slice. -/
theorem C6_sortSlices_trivial (v : DicomVolume)
    (hlen : v.slices.length < 2) (hs : v.is_sorted = false)
    (h4 : v.is_4D = false) :
    sortSlices v =
      { v with is_sorted := true, is_valid := true, is_equidistant := true } ∧
    (sortSlices v).is_valid = true ∧ (sortSlices v).is_equidistant = true ∧
    (sortSlices v).is_sorted = true ∧ (sortSlices v).is_4D = false := by
  have h : sortSlices v =
      { v with is_sorted := true, is_valid := true, is_equidistant := true } := by
    simp [sortSlices, hs, hlen]
  exact ⟨h, by rw [h], by rw [h], by rw [h], by rw [h]; exact h4⟩

/-- C6 witness: the single-slice volume whose slice carries no metadata at all
is classified valid, equidistant, sorted and not 4D, even though the validity
checker rejects its slice list. -/
theorem C6_witness :
    check_valid w6.slices = false ∧
    (sortSlices w6).is_valid = true ∧ (sortSlices w6).is_equidistant = true ∧
    (sortSlices w6).is_sorted = true ∧ (sortSlices w6).is_4D = false := by
  have h := C6_sortSlices_trivial w6 (by decide) (by decide) (by decide)
  exact ⟨by decide, h.2.1, h.2.2.1, h.2.2.2.1, h.2.2.2.2⟩

/-- C7: for a non-empty slice list whose first slice carries the 6-component
orientation `[a, b, c, d, e, f]`, the geometric locator returns one scalar per
slice, namely the dot product of that slice's position 3-vector with the cross
product of the row-direction cosines `(a, b, c)` and the column-direction
cosines `(d, e, f)`. -/
theorem C7_slice_locations (s0 : DicomSlice) (rest : List DicomSlice)
    (a b c d e f : ℚ)
    (hio : s0.imageOrientationPatient = some [a, b, c, d, e, f]) :
    List.Forall₂
      (fun s loc => ∀ p, s.imagePositionPatient = some p →
        loc = dot3 p (cross3 (a, b, c) (d, e, f)))
      (s0 :: rest) (get_slice_locations (s0 :: rest)) := by
  unfold get_slice_locations
  simp only [hio, Option.getD_some]
  rw [List.forall₂_map_right_iff, List.forall₂_same]
  intro s _ p hp
  simp [hp, vec3OfList]

/-- C7 witness: the locator applied to two axial slices at heights 0 and 10
returns the dot products with the axial normal. -/
theorem C7_witness :
    List.Forall₂
      (fun s loc => ∀ p, s.imagePositionPatient = some p →
        loc = dot3 p (cross3 ((1 : ℚ), 0, 0) ((0 : ℚ), 1, 0)))
      [mkSlice "a" 0 [], mkSlice "b" 10 []]
      (get_slice_locations [mkSlice "a" 0 [], mkSlice "b" 10 []]) :=
  C7_slice_locations (mkSlice "a" 0 []) [mkSlice "b" 10 []] 1 0 0 0 1 0 rfl

/-- C1: on a valid volume (sort flag clear, at least two slices, validity
check passing) whose sorted locations contain repeated positions — some raw
delta at most 0.03 mm — while the boundary deltas are mutually consistent
(`np.allclose` against the first boundary delta at `rtol=5e-2`), `sortSlices`
marks `is_4D := true`.  When the total slice count is not evenly divisible by
`n_slices` (boundary-delta count plus one) it also marks
`is_equidistant := false` and stops, leaving the sort flag clear; otherwise it
sets `is_sorted := true`.  In both cases the top-level slice list is left
untouched. -/
theorem C1_sortSlices_marks_4D (v : DicomVolume)
    (hs : v.is_sorted = false) (hn : 2 ≤ v.slices.length)
    (hv : check_valid v.slices = true)
    (hrep : ∃ d ∈ rawDeltas v.slices, d ≤ tol003)
    (hcons : allcloseFirst rtol5em2 atolDefault (boundaryDeltas v.slices) = true) :
    (sortSlices v).is_4D = true ∧
    (0 < v.slices.length % ((boundaryDeltas v.slices).length + 1) →
      sortSlices v =
        { v with n_slices := (boundaryDeltas v.slices).length + 1, is_4D := true,
                 is_equidistant := false }) ∧
    (v.slices.length % ((boundaryDeltas v.slices).length + 1) = 0 →
      sortSlices v =
        { v with n_slices := (boundaryDeltas v.slices).length + 1, is_4D := true,
                 is_sorted := true }) := by
  have hlt : (boundaryDeltas v.slices).length < (rawDeltas v.slices).length := by
    obtain ⟨d, hd, hle⟩ := hrep
    exact length_filter_lt_of_mem hd (decide_eq_false (not_lt.mpr hle))
  have h2 : ¬ (v.slices.length < 2) := Nat.not_lt.mpr hn
  have hkey : sortSlices v =
      if 0 < v.slices.length % ((boundaryDeltas v.slices).length + 1) then
        { v with n_slices := (boundaryDeltas v.slices).length + 1, is_4D := true,
                 is_equidistant := false }
      else
        { v with n_slices := (boundaryDeltas v.slices).length + 1, is_4D := true,
                 is_sorted := true } := by
    unfold sortSlices
    rw [if_neg (by simp [hs]), if_neg h2, if_neg (by simp [hv]),
        if_neg (by simp [hcons]), if_pos hlt]
  refine ⟨?_, ?_, ?_⟩
  · rw [hkey]; split <;> rfl
  · intro hmod; rw [hkey, if_pos hmod]
  · intro hmod; rw [hkey, if_neg (by omega)]

/-- C1 witness: a 4-slice volume with two slices at each of the locations 0
and 10 mm is marked 4D and sorted, its slice list untouched. -/
theorem C1_witness :
    sortSlices w1 = { w1 with n_slices := 2, is_4D := true, is_sorted := true } := by
  have h := C1_sortSlices_marks_4D w1 (by decide) (by decide) (by decide)
    ⟨0, by decide, by decide⟩ (by decide)
  have h0 : (boundaryDeltas w1.slices).length = 1 := by decide
  have := h.2.2 (by rw [h0]; decide)
  rw [h0] at this
  exact this

/-- C9: the discriminant normalization of `split4D` maps the numeric string
`"5"`, the decimal `5.0` and the integer `5` to the same integer key `5`, so
three slices carrying those encodings all land in one temporal group. -/
theorem C9_normalization_same_key :
    normalizeKey (.strv "5") = some (.ik 5, false) ∧
    normalizeKey (.floatv 5) = some (.ik 5, false) ∧
    normalizeKey (.intv 5) = some (.ik 5, false) ∧
    (split4D v9 bTag none).1.slices4D = some [(.ik 5, [s9x, s9y, s9z])] ∧
    (split4D v9 bTag none).2.1 = true := by
  refine ⟨by decide, by decide, by decide, by decide, by decide⟩

/-- The groups built by the `split4D` loop are exactly the bucketing of the
longest decodable leading run of the remaining slices, on top of the groups
built so far. -/
theorem split4DLoop_groups (tag : SplitTag) (mv : Option ℚ) :
    ∀ (ss : List DicomSlice) (gs : Groups) (ws : List String),
    (split4DLoop tag mv gs ws ss).1 = buildFrom tag gs (ss.takeWhile (decodes tag)) := by
  intro ss
  induction ss with
  | nil => intro gs ws; rfl
  | cons s rest ih =>
    intro gs ws
    cases hl : tagLookup s tag with
    | none =>
      have hd : decodes tag s = false := by simp [decodes, hl]
      simp [split4DLoop, hl, List.takeWhile_cons, hd, buildFrom]
    | some raw =>
      cases hn : normalizeKey raw with
      | none =>
        have hd : decodes tag s = false := by simp [decodes, hl, hn]
        simp [split4DLoop, hl, hn, List.takeWhile_cons, hd, buildFrom]
      | some kb =>
        have hd : decodes tag s = true := by simp [decodes, hl, hn]
        obtain ⟨k, b⟩ := kb
        simp only [split4DLoop, hl, hn, List.takeWhile_cons, hd, if_true]
        rw [ih]
        simp [buildFrom, buildStep, hl, hn]

/-- The boolean returned by the `split4D` loop is `true` exactly when every
remaining slice decodes. -/
theorem split4DLoop_ret (tag : SplitTag) (mv : Option ℚ) :
    ∀ (ss : List DicomSlice) (gs : Groups) (ws : List String),
    (split4DLoop tag mv gs ws ss).2.1 = ss.all (decodes tag) := by
  intro ss
  induction ss with
  | nil => intro gs ws; rfl
  | cons s rest ih =>
    intro gs ws
    cases hl : tagLookup s tag with
    | none =>
      have hd : decodes tag s = false := by simp [decodes, hl]
      simp [split4DLoop, hl, hd]
    | some raw =>
      cases hn : normalizeKey raw with
      | none =>
        have hd : decodes tag s = false := by simp [decodes, hl, hn]
        simp [split4DLoop, hl, hn, hd]
      | some kb =>
        have hd : decodes tag s = true := by simp [decodes, hl, hn]
        obtain ⟨k, b⟩ := kb
        simp only [split4DLoop, hl, hn, List.all_cons, hd, Bool.true_and]
        exact ih _ _

/-- Without a `max_value`, the `split4D` loop emits no warnings. -/
theorem split4DLoop_warns_none (tag : SplitTag) :
    ∀ (ss : List DicomSlice) (gs : Groups) (ws : List String),
    (split4DLoop tag none gs ws ss).2.2 = ws := by
  intro ss
  induction ss with
  | nil => intro gs ws; rfl
  | cons s rest ih =>
    intro gs ws
    cases hl : tagLookup s tag with
    | none => simp [split4DLoop, hl]
    | some raw =>
      cases hn : normalizeKey raw with
      | none => simp [split4DLoop, hl, hn]
      | some kb =>
        obtain ⟨k, b⟩ := kb
        simp only [split4DLoop, hl, hn]
        exact ih _ _

/-- With a `max_value`, the warnings of the `split4D` loop are exactly the
filenames of the decodable leading slices whose numeric key exceeds the
bound. -/
theorem split4DLoop_warns_some (tag : SplitTag) (m : ℚ) :
    ∀ (ss : List DicomSlice) (gs : Groups) (ws : List String),
    (split4DLoop tag (some m) gs ws ss).2.2 =
      ws ++ ((ss.takeWhile (decodes tag)).filter (exceedsMax tag m)).map
        DicomSlice.filename := by
  intro ss
  induction ss with
  | nil => intro gs ws; simp [split4DLoop]
  | cons s rest ih =>
    intro gs ws
    cases hl : tagLookup s tag with
    | none =>
      have hd : decodes tag s = false := by simp [decodes, hl]
      simp [split4DLoop, hl, List.takeWhile_cons, hd]
    | some raw =>
      cases hn : normalizeKey raw with
      | none =>
        have hd : decodes tag s = false := by simp [decodes, hl, hn]
        simp [split4DLoop, hl, hn, List.takeWhile_cons, hd]
      | some kb =>
        have hd : decodes tag s = true := by simp [decodes, hl, hn]
        obtain ⟨k, b⟩ := kb
        have hex : exceedsMax tag m s = (!b && decide (m < keyNum k)) := by
          simp [exceedsMax, hl, hn]
        simp only [split4DLoop, hl, hn, List.takeWhile_cons, hd, if_true]
        rw [ih]
        cases hb : (!b && decide (m < keyNum k)) with
        | true => simp [List.filter_cons, hex, hb, hd]
        | false => simp [List.filter_cons, hex, hb, hd]

/-- A list each of whose elements satisfies the predicate is its own longest
satisfying leading run. -/
theorem takeWhile_all_eq {α : Type} {p : α → Bool} :
    ∀ (l : List α), l.all p = true → l.takeWhile p = l := by
  intro l
  induction l with
  | nil => intro _; rfl
  | cons a t ih =>
    intro h
    rw [List.all_cons, Bool.and_eq_true] at h
    rw [List.takeWhile_cons, if_pos h.1, ih h.2]

/-- The slice just appended by `addToGroups` is a member of its group. -/
theorem mem_addToGroups_self (k : TagKey) (s : DicomSlice) :
    ∀ (gs : Groups), ∃ g, (k, g) ∈ addToGroups gs k s ∧ s ∈ g := by
  intro gs
  induction gs with
  | nil => exact ⟨[s], List.mem_singleton.mpr rfl, List.mem_singleton.mpr rfl⟩
  | cons p rest ih =>
    obtain ⟨k', l⟩ := p
    by_cases hk : k' = k
    · subst hk
      refine ⟨l ++ [s], ?_, List.mem_append_right l (List.mem_singleton.mpr rfl)⟩
      simp [addToGroups]
    · obtain ⟨g, hg, hs⟩ := ih
      refine ⟨g, ?_, hs⟩
      simp only [addToGroups, if_neg hk]
      exact List.mem_cons_of_mem _ hg

/-- `addToGroups` never removes a slice from a group: membership is
preserved (the group may have grown). -/
theorem mem_addToGroups_mono (k' : TagKey) (s' : DicomSlice) :
    ∀ (gs : Groups) (k : TagKey) (g : List DicomSlice) (s : DicomSlice),
    (k, g) ∈ gs → s ∈ g →
    ∃ g2, (k, g2) ∈ addToGroups gs k' s' ∧ s ∈ g2 := by
  intro gs
  induction gs with
  | nil => intro k g s h; cases h
  | cons p rest ih =>
    obtain ⟨k0, l0⟩ := p
    intro k g s hmem hs
    by_cases hk : k0 = k'
    · subst hk
      rcases List.mem_cons.mp hmem with heq | htail
      · obtain ⟨hk0, hl0⟩ := Prod.mk.injEq .. ▸ heq
        refine ⟨l0 ++ [s'], ?_, ?_⟩
        · simp [addToGroups, ← hk0]
        · exact List.mem_append_left _ (hl0 ▸ hs)
      · refine ⟨g, ?_, hs⟩
        simp only [addToGroups, if_pos rfl]
        exact List.mem_cons_of_mem _ htail
    · rcases List.mem_cons.mp hmem with heq | htail
      · refine ⟨g, ?_, hs⟩
        simp only [addToGroups, if_neg hk]
        exact heq ▸ List.mem_cons_self _ _
      · obtain ⟨g2, hg2, hs2⟩ := ih k g s htail hs
        refine ⟨g2, ?_, hs2⟩
        simp only [addToGroups, if_neg hk]
        exact List.mem_cons_of_mem _ hg2

/-- Bucketing further slices preserves membership in the groups. -/
theorem mem_buildFrom_mono (tag : SplitTag) :
    ∀ (ss : List DicomSlice) (gs : Groups) (k : TagKey) (g : List DicomSlice)
      (s : DicomSlice), (k, g) ∈ gs → s ∈ g →
    ∃ g2, (k, g2) ∈ buildFrom tag gs ss ∧ s ∈ g2 := by
  intro ss
  induction ss with
  | nil => intro gs k g s hmem hs; exact ⟨g, hmem, hs⟩
  | cons a rest ih =>
    intro gs k g s hmem hs
    rw [buildFrom, List.foldl_cons]
    cases hb : (tagLookup a tag).bind normalizeKey with
    | none =>
      have : buildStep tag gs a = gs := by simp [buildStep, hb]
      rw [this]
      exact ih gs k g s hmem hs
    | some kb =>
      have hstep : buildStep tag gs a = addToGroups gs kb.1 a := by
        simp [buildStep, hb]
      rw [hstep]
      obtain ⟨g2, hg2, hs2⟩ := mem_addToGroups_mono kb.1 a gs k g s hmem hs
      exact ih _ k g2 s hg2 hs2

/-- Every decodable slice of the input ends up in some group of the
bucketing. -/
theorem mem_buildFrom (tag : SplitTag) :
    ∀ (ss : List DicomSlice) (gs : Groups) (s : DicomSlice),
    s ∈ ss → decodes tag s = true →
    ∃ k g, (k, g) ∈ buildFrom tag gs ss ∧ s ∈ g := by
  intro ss
  induction ss with
  | nil => intro gs s h; cases h
  | cons a rest ih =>
    intro gs s hmem hdec
    rcases List.mem_cons.mp hmem with rfl | htail
    · obtain ⟨kb, hkb⟩ : ∃ kb, (tagLookup s tag).bind normalizeKey = some kb := by
        cases h : (tagLookup s tag).bind normalizeKey
        · rw [decodes, h] at hdec; cases hdec
        · exact ⟨_, rfl⟩
      have hstep : buildStep tag gs s = addToGroups gs kb.1 s := by
        simp [buildStep, hkb]
      rw [buildFrom, List.foldl_cons, hstep]
      obtain ⟨g, hg, hs⟩ := mem_addToGroups_self kb.1 s gs
      obtain ⟨g2, hg2, hs2⟩ := mem_buildFrom_mono tag rest _ kb.1 g s hg hs
      exact ⟨kb.1, g2, hg2, hs2⟩
    · rw [buildFrom, List.foldl_cons]
      exact ih (buildStep tag gs a) s htail hdec

/-- C4: `split4D` returns `true` exactly when every slice's discriminant
value is present and decodable; and when it returns `true`, every slice has
been assigned to some group of the resulting temporal-groups mapping.  A
missing or undecodable value on any slice therefore makes the whole split
return `false`. -/
theorem C4_split4D_true_iff_all_assigned (v : DicomVolume) (tag : SplitTag)
    (mv : Option ℚ) :
    ((split4D v tag mv).2.1 = true ↔ ∀ s ∈ v.slices, decodes tag s = true) ∧
    ((split4D v tag mv).2.1 = true → ∀ s ∈ v.slices,
      ∃ k g, (k, g) ∈ ((split4D v tag mv).1.slices4D).getD [] ∧ s ∈ g) := by
  constructor
  · rw [split4D]
    simp only [split4DLoop_ret]
    exact List.all_eq_true
  · intro htrue s hmem
    have hall : v.slices.all (decodes tag) = true := by
      rw [split4D] at htrue
      simpa only [split4DLoop_ret] using htrue
    have hgroups : ((split4D v tag mv).1.slices4D).getD [] =
        buildFrom tag [] v.slices := by
      rw [split4D]
      simp only [split4DLoop_groups, takeWhile_all_eq v.slices hall,
        Option.getD_some]
    rw [hgroups]
    exact mem_buildFrom tag v.slices [] s hmem
      (List.all_eq_true.mp hall s hmem)

/-- C4 witness: on the three-slice volume whose discriminants all decode, the
split returns `true`. -/
theorem C4_witness : (split4D v9 bTag none).2.1 = true :=
  (C4_split4D_true_iff_all_assigned v9 bTag none).1.mpr (by decide)

/-- C8: `split4D` with a `max_value` produces exactly the same volume state
(same groups, same split tag) and the same boolean as `split4D` without one —
a slice whose numeric key exceeds the bound is still appended to its group.
The only difference is the warning side-channel: with a bound, the warnings
are exactly the filenames of the decodable slices whose numeric key exceeds
it; without one there are none. -/
theorem C8_max_value_warns_only (v : DicomVolume) (tag : SplitTag) (m : ℚ) :
    (split4D v tag (some m)).1 = (split4D v tag none).1 ∧
    (split4D v tag (some m)).2.1 = (split4D v tag none).2.1 ∧
    (split4D v tag (some m)).2.2 =
      ((v.slices.takeWhile (decodes tag)).filter (exceedsMax tag m)).map
        DicomSlice.filename ∧
    (split4D v tag none).2.2 = [] := by
  refine ⟨?_, ?_, ?_, ?_⟩
  · rw [split4D, split4D]
    simp only [split4DLoop_groups]
  · rw [split4D, split4D]
    simp only [split4DLoop_ret]
  · rw [split4D]
    simpa using split4DLoop_warns_some tag m v.slices [] []
  · rw [split4D]
    simpa using split4DLoop_warns_none tag v.slices [] []

/-- C10: every call to `split4D` — also a failing one — installs a fresh
mapping holding exactly the bucketing of the slices examined before the first
failing slice (all slices on success), records the tag as `split_tag`, and
leaves the slice list untouched; the previous mapping never survives. -/
theorem C10_split4D_resets_groups (v : DicomVolume) (tag : SplitTag)
    (mv : Option ℚ) :
    (split4D v tag mv).1.slices4D =
      some (buildFrom tag [] (v.slices.takeWhile (decodes tag))) ∧
    (split4D v tag mv).1.split_tag = some tag ∧
    (split4D v tag mv).1.slices = v.slices := by
  refine ⟨?_, ?_, ?_⟩ <;> simp [split4D, split4DLoop_groups]

/-- A failing group can never be reported as a success. -/
theorem groupFailMode_ne_rTrue (sc : Option Nat) (g : List DicomSlice) :
    groupFailMode sc g ≠ .rTrue := by
  rw [groupFailMode]
  split
  · intro h; cases h
  · split
    · intro h; cases h
    · split
      · intro h; cases h
      · intro h; cases h

/-- The `sortSlices4D` loop on a list headed by a failing group stops there:
nothing is rewritten and the failure mode is returned. -/
theorem sort4DLoop_fail_head (sc : Option Nat) (k : TagKey)
    (g : List DicomSlice) (post : Groups) (hfail : groupPass sc g = false) :
    sort4DLoop sc ((k, g) :: post) = ((k, g) :: post, groupFailMode sc g) := by
  cases h1 : countMismatch sc g with
  | true => simp [sort4DLoop, groupFailMode, h1]
  | false =>
    cases h2 : (groupDeltas g).any (fun d => decide (d < tol003)) with
    | true => simp [sort4DLoop, groupFailMode, h1, h2]
    | false =>
      cases hds : groupDeltas g with
      | nil => simp [sort4DLoop, groupFailMode, h1, h2, hds]
      | cons d0 tl =>
        have h3 : (d0 :: tl).all (fun d => npClose rtol1em2 atolDefault d d0) = false := by
          rw [groupPass, h1, h2, hds] at hfail
          simpa using hfail
        rw [hds] at h2
        simp [sort4DLoop, groupFailMode, h1, h2, hds, h3]

/-- The `sortSlices4D` loop on a list headed by a passing group rewrites that
group in place and continues with the updated running count. -/
theorem sort4DLoop_pass_head (sc : Option Nat) (k : TagKey)
    (g : List DicomSlice) (post : Groups) (hpass : groupPass sc g = true) :
    sort4DLoop sc ((k, g) :: post) =
      ((k, sortGroup g) :: (sort4DLoop (some (countAfter sc g)) post).1,
       (sort4DLoop (some (countAfter sc g)) post).2) := by
  rw [groupPass, Bool.and_eq_true, Bool.and_eq_true] at hpass
  obtain ⟨⟨h1, h2⟩, h3⟩ := hpass
  rw [Bool.not_eq_true'] at h1 h2
  cases hds : groupDeltas g with
  | nil => rw [hds] at h3; simp at h3
  | cons d0 tl =>
    simp only [hds] at h3
    rw [hds] at h2
    simp [sort4DLoop, h1, h2, hds, h3]

/-- The loop reports success exactly when every group passes. -/
theorem sort4DLoop_true_iff :
    ∀ (gs : Groups) (sc : Option Nat),
    ((sort4DLoop sc gs).2 = .rTrue ↔ allPass sc gs = true) := by
  intro gs
  induction gs with
  | nil => intro sc; simp [sort4DLoop, allPass]
  | cons p rest ih =>
    intro sc
    obtain ⟨k, g⟩ := p
    cases hp : groupPass sc g with
    | true =>
      rw [sort4DLoop_pass_head sc k g rest hp]
      simp [allPass, hp, ih]
    | false =>
      rw [sort4DLoop_fail_head sc k g rest hp]
      simp [allPass, hp, groupFailMode_ne_rTrue sc g]

/-- When every group passes, the loop replaces every group's list with its
sorted order and reports success. -/
theorem sort4DLoop_pass_eq :
    ∀ (gs : Groups) (sc : Option Nat), allPass sc gs = true →
    sort4DLoop sc gs = (gs.map (fun p => (p.1, sortGroup p.2)), .rTrue) := by
  intro gs
  induction gs with
  | nil => intro sc _; rfl
  | cons p rest ih =>
    intro sc hall
    obtain ⟨k, g⟩ := p
    rw [allPass, Bool.and_eq_true] at hall
    rw [sort4DLoop_pass_head sc k g rest hall.1, ih _ hall.2]
    rfl

/-- When a failing group is preceded by passing groups only, the loop
replaces exactly the preceding groups, leaves the failing group and its
successors untouched, and returns that group's failure mode. -/
theorem sort4DLoop_fail_eq :
    ∀ (pre : Groups) (sc : Option Nat) (k : TagKey) (g : List DicomSlice)
      (post : Groups),
    allPass sc pre = true → groupPass (scThread sc pre) g = false →
    sort4DLoop sc (pre ++ (k, g) :: post) =
      (pre.map (fun p => (p.1, sortGroup p.2)) ++ (k, g) :: post,
       groupFailMode (scThread sc pre) g) := by
  intro pre
  induction pre with
  | nil =>
    intro sc k g post _ hfail
    rw [scThread] at hfail ⊢
    simpa using sort4DLoop_fail_head sc k g post hfail
  | cons p rest ih =>
    intro sc k g post hall hfail
    obtain ⟨k0, g0⟩ := p
    rw [allPass, Bool.and_eq_true] at hall
    rw [scThread] at hfail ⊢
    rw [List.cons_append, sort4DLoop_pass_head sc k0 g0 _ hall.1,
      ih (some (countAfter sc g0)) k g post hall.2 hfail]
    simp

/-- C2 (amended): with the temporal-groups mapping populated and the 4D sort
flag clear, `sortSlices4D` reports success exactly when every group passes
the checks (equal counts, no within-group delta below 0.03 mm, at least two
slices, consistent spacing); on success every group's list is replaced by its
position-sorted order and `is_sorted4D` is set.  When a first failing group
exists, the return value is that group's failure mode — `False` for a count
mismatch or an overlapping delta, an exception for a single-slice group, a
bare `return` (no boolean) for inconsistent spacing, which also sets
`is_equidistant := false` — and the groups preceding the failure have already
been replaced in place while the failing group and its successors are
untouched. -/
theorem C2_sortSlices4D_spec (v : DicomVolume) (gs : Groups)
    (h4 : v.is_sorted4D = false) (hg : v.slices4D = some gs) :
    ((sortSlices4D v).2 = .rTrue ↔ allPass none gs = true) ∧
    (allPass none gs = true →
      (sortSlices4D v).1 =
        { v with slices4D := some (gs.map (fun p => (p.1, sortGroup p.2))),
                 n_pos := gs.length, is_sorted4D := true }) ∧
    (∀ pre k g post, gs = pre ++ (k, g) :: post →
      allPass none pre = true → groupPass (scThread none pre) g = false →
      (sortSlices4D v).2 = groupFailMode (scThread none pre) g ∧
      (sortSlices4D v).1.slices4D =
        some (pre.map (fun p => (p.1, sortGroup p.2)) ++ (k, g) :: post) ∧
      (sortSlices4D v).1.is_sorted4D = false ∧
      ((sortSlices4D v).2 = .rNone → (sortSlices4D v).1.is_equidistant = false) ∧
      ((sortSlices4D v).2 = .rFalse ∨ (sortSlices4D v).2 = .rExn →
        (sortSlices4D v).1.is_equidistant = v.is_equidistant)) := by
  have hbody : sortSlices4D v =
      (match (sort4DLoop none gs).2 with
       | .rTrue =>
         ({ v with slices4D := some (sort4DLoop none gs).1,
                   n_pos := (sort4DLoop none gs).1.length, is_sorted4D := true },
          .rTrue)
       | .rNone =>
         ({ v with slices4D := some (sort4DLoop none gs).1,
                   is_equidistant := false }, .rNone)
       | out => ({ v with slices4D := some (sort4DLoop none gs).1 }, out)) := by
    rw [sortSlices4D, if_neg (by simp [h4]), hg]
  refine ⟨?_, ?_, ?_⟩
  · rw [hbody, ← sort4DLoop_true_iff gs none]
    cases h : (sort4DLoop none gs).2 <;> simp
  · intro hall
    rw [hbody]
    rw [sort4DLoop_pass_eq gs none hall]
    simp
  · intro pre k g post hgs hall hfail
    have heq := sort4DLoop_fail_eq pre none k g post hall hfail
    rw [hgs] at hbody
    rw [hbody, heq]
    cases hm : groupFailMode (scThread none pre) g with
    | rTrue => exact absurd hm (groupFailMode_ne_rTrue _ _)
    | rFalse => simp [h4]
    | rNone => simp [h4]
    | rExn => simp [h4]

/-- C2 witness: on the volume whose two groups (two slices each, consistent
spacing) both pass, `sortSlices4D` reports success and marks the volume
4D-sorted. -/
theorem C2_witness :
    (sortSlices4D w2).2 = .rTrue ∧ (sortSlices4D w2).1.is_sorted4D = true := by
  have h := C2_sortSlices4D_spec w2
    [(.ik 0, [mkSlice "a" 10 [], mkSlice "b" 0 []]),
     (.ik 1, [mkSlice "c" 10 [], mkSlice "d" 0 []])] (by decide) rfl
  have hall : allPass none
      [(TagKey.ik 0, [mkSlice "a" 10 [], mkSlice "b" 0 []]),
       (TagKey.ik 1, [mkSlice "c" 10 [], mkSlice "d" 0 []])] = true := by decide
  refine ⟨h.1.mpr hall, ?_⟩
  rw [h.2.1 hall]

/-- C2 counterexample: on the volume whose first group (two slices, stored
out of order) passes and whose second group has a different slice count,
`sortSlices4D` returns `False`, yet the first group's list has already been
replaced by its sorted order — refuting the claim that group lists are
replaced only in the all-groups-succeed case. -/
theorem C2_counterexample :
    (sortSlices4D cv2).2 = .rFalse ∧
    (sortSlices4D cv2).1.slices4D ≠ cv2.slices4D ∧
    (sortSlices4D cv2).1.slices4D =
      some [(.ik 0, [mkSlice "b" 0 [], mkSlice "a" 10 []]),
            (.ik 1, [mkSlice "c" 0 []])] := by
  refine ⟨by decide, by decide, by decide⟩

/-- `sortSlices` run twice produces the same state as run once: every branch
either sets the sort flag (making the second run a guard no-op) or changes
only flags that the recomputation sets to the same values again. -/
theorem sortSlices_idem (v : DicomVolume) :
    sortSlices (sortSlices v) = sortSlices v := by
  obtain ⟨sl, s4, iv, ie, is, i4, is4, st, ns, np⟩ := v
  cases is with
  | true => simp [sortSlices]
  | false =>
    by_cases h2 : sl.length < 2
    · simp [sortSlices, h2]
    · by_cases hcv : check_valid sl = true
      · by_cases hb : (0 < (boundaryDeltas sl).length ∧
            allcloseFirst rtol5em2 atolDefault (boundaryDeltas sl) = false)
        · simp [sortSlices, h2, hcv, hb]
        · by_cases h4 : (boundaryDeltas sl).length < (rawDeltas sl).length
          · by_cases hmod : 0 < sl.length % ((boundaryDeltas sl).length + 1)
            · simp [sortSlices, h2, hcv, hb, h4, hmod]
            · simp [sortSlices, h2, hcv, hb, h4, hmod]
          · simp [sortSlices, h2, hcv, hb, h4]
      · have hcv' : check_valid sl = false := by
          cases h : check_valid sl
          · rfl
          · exact absurd h hcv
        simp [sortSlices, h2, hcv']

/-- C3 (amended): invoking `sortSlices` twice yields exactly the same final
state — ordering and flags — as invoking it once, and re-invoking
`sortSlices4D` after `is_sorted4D` is set is a no-op returning `True`.  The
original claim's second half fails on the code: `split4D` has no done-flag
guard and does not clear `is_sorted4D`, so running `split4D` followed by
`sortSlices4D` a second time rebuilds the groups in original slice order and
the second `sortSlices4D` short-circuits, leaving the per-group orderings
unsorted (see the counterexample). -/
theorem C3_idempotence_amended :
    (∀ v : DicomVolume, sortSlices (sortSlices v) = sortSlices v) ∧
    (∀ v : DicomVolume, v.is_sorted4D = true → sortSlices4D v = (v, .rTrue)) := by
  constructor
  · exact sortSlices_idem
  · intro v h
    rw [sortSlices4D, if_pos h]

/-- C3 witness: on a volume already marked 4D-sorted, `sortSlices4D` is a
no-op returning `True`; and `sortSlices` on the concrete 4-slice 4D volume is
idempotent. -/
theorem C3_witness :
    sortSlices4D w3 = (w3, .rTrue) ∧ sortSlices (sortSlices w1) = sortSlices w1 :=
  ⟨C3_idempotence_amended.2 w3 rfl, C3_idempotence_amended.1 w1⟩

/-- C3 counterexample: on a 4D volume whose groups are stored out of order,
running `split4D` then `sortSlices4D` twice does not reproduce the per-group
orderings of running the pair once — the first pair sorts each group, the
second pair rebuilds the groups unsorted and its group sort short-circuits on
the stale `is_sorted4D` flag. -/
theorem C3_counterexample :
    (splitSortPair (splitSortPair cv3 bTag) bTag).slices4D ≠
      (splitSortPair cv3 bTag).slices4D ∧
    (splitSortPair cv3 bTag).is_sorted4D = true ∧
    (splitSortPair (splitSortPair cv3 bTag) bTag).is_sorted4D = true := by
  refine ⟨by decide, by decide, by decide⟩

end RatComputation

end Nrrdify
